import Mathlib

/-!
Verification of the transcript pipeline in `streamlit_app.py`.

Python strings are modelled as `List Char`.  Python `str.split("\n")` is
`splitNL`, Python `sep.join(pieces)` (for a one-character separator) is
`joinSep`.  The regular-expression prefix match performed by
`re.compile(pat).match(line)` is modelled by `matchesPat`, a character-class
pattern matched against a prefix of the line.  Python's `\d` additionally
matches non-ASCII Unicode digits; the embedding restricts it to the ASCII
digits via `Char.isDigit`, which none of the verified properties depend on.
-/

/-- Python `s.split("\n")`: splits at every newline; the empty string yields
one empty piece, so the result is always non-empty. -/
def splitNL : List Char → List (List Char)
  | [] => [[]]
  | c :: cs =>
    if c = '\n' then [] :: splitNL cs
    else
      match splitNL cs with
      | [] => [c] :: []
      | l :: ls => (c :: l) :: ls

/-- Python `sep.join(pieces)` for a single-character separator `sep`. -/
def joinSep (sep : Char) : List (List Char) → List Char
  | [] => []
  | [l] => l
  | l :: l2 :: ls => l ++ sep :: joinSep sep (l2 :: ls)

/-- A regex character class or literal, as a character predicate. -/
def litP (a : Char) : Char → Bool := fun c => c == a

/-- The pattern `\d{2}:\d{2}:\d{2},\d{3}` of `timestamp_pattern`. -/
def timePart : List (Char → Bool) :=
  [Char.isDigit, Char.isDigit, litP ':',
   Char.isDigit, Char.isDigit, litP ':',
   Char.isDigit, Char.isDigit, litP ',',
   Char.isDigit, Char.isDigit, Char.isDigit]

/-- The compiled pattern
`\d{2}:\d{2}:\d{2},\d{3} --> \d{2}:\d{2}:\d{2},\d{3}`
from `remove_timestamps` (line 53). -/
def timestampPattern : List (Char → Bool) :=
  timePart ++ [litP ' ', litP '-', litP '-', litP '>', litP ' '] ++ timePart

/-- `re.Pattern.match`: the pattern must match a prefix of the string
(anchored at the start, no end anchor). -/
def matchesPat : List (Char → Bool) → List Char → Bool
  | [], _ => true
  | _ :: _, [] => false
  | p :: ps, c :: cs => p c && matchesPat ps cs

/-- The pattern must match the whole string. -/
def matchesExact : List (Char → Bool) → List Char → Bool
  | [], [] => true
  | [], _ :: _ => false
  | _ :: _, [] => false
  | p :: ps, c :: cs => p c && matchesExact ps cs

/-- `timestamp_pattern.match(line)` viewed as a Boolean. -/
def timestampMatch (line : List Char) : Bool :=
  matchesPat timestampPattern line

/-- `remove_timestamps(srt_text)` (lines 52-58): split into lines, drop the
lines the timestamp pattern matches, rejoin with newlines. -/
def remove_timestamps (srt_text : List Char) : List Char :=
  joinSep '\n' ((splitNL srt_text).filter (fun line => !timestampMatch line))

example :
    remove_timestamps ("a\n00:00:01,000 --> 00:00:02,000\nb").toList
      = ("a\nb").toList := by decide

example : remove_timestamps ("00:00:01,000 --> 00:00:02,000").toList = [] := by
  decide

/-- A Python exception, as the pipeline observes it: either the
`ZeroDivisionError` the progress computation can raise, or an exception
raised by a collaborator, identified by its message. -/
inductive PyErr where
  | zeroDivision
  | raised (msg : List Char)
deriving DecidableEq

/-- One caption fragment returned by
`YouTubeTranscriptApi.get_transcript`: a dict whose `"text"` key the code
reads (its other keys, `"start"` and `"duration"`, are never used). -/
structure CaptionFragment where
  text : List Char
deriving DecidableEq

/-- `get_transcript_text(video_id)` (lines 47-49), applied to the fragment
list the external API produced:
`" ".join([item["text"] for item in transcript])`. -/
def get_transcript_text (transcript : List CaptionFragment) : List Char :=
  joinSep ' ' (transcript.map (fun item => item.text))

/-- One record produced by `scrapetube.get_channel`: a dict whose
`"videoId"` key the code reads (its other keys are never used). -/
structure VideoRecord where
  videoId : List Char
deriving DecidableEq

/-- `get_all_video_ids(channel_url)` (lines 90-93), applied to the outcome
of the `scrapetube.get_channel(channel_url=channel_url)` call: the list
comprehension `[video["videoId"] for video in videos]` maps over the
records, and any exception the scraper raises propagates (there is no
`try`). -/
def get_all_video_ids
    (scrape : Except PyErr (List VideoRecord)) :
    Except PyErr (List (List Char)) :=
  match scrape with
  | .error e => .error e
  | .ok videos => .ok (videos.map (fun video => video.videoId))

/-- The message printed by one of the two failure branches of
`download_transcript` (lines 73 and 76). -/
inductive DlLog where
  | failedDownload (video_id : List Char) (e : PyErr)
  | noTranscript (video_id : List Char)
deriving DecidableEq

/-- The observable outcome of `download_transcript`: the returned Boolean,
the file written (name and content), if any, and the message printed, if
any. -/
structure DownloadOutcome where
  retval : Bool
  written : Option (List Char × List Char)
  log : Option DlLog
deriving DecidableEq

/-- The file-name suffix `".txt"`. -/
def txtExt : List Char := ('.' :: 't' :: 'x' :: 't' :: [])

/-- `download_transcript(video_id, output_dir)` (lines 61-77), applied to
the outcome of the `get_transcript_text(video_id)` call inside the `try`:
on an exception it prints and returns `False`; on a truthy (non-empty)
transcript it writes `<video_id>.txt` with the cleaned text and returns
`True`; on an empty transcript it prints and returns `False`. -/
def download_transcript (video_id : List Char)
    (fetched : Except PyErr (List CaptionFragment)) : DownloadOutcome :=
  match fetched with
  | .error e => ⟨false, none, some (.failedDownload video_id e)⟩
  | .ok transcript =>
    let t := get_transcript_text transcript
    if t ≠ [] then
      ⟨true, some (video_id ++ txtExt, remove_timestamps t), none⟩
    else
      ⟨false, none, some (.noTranscript video_id)⟩

/-- `concatenate_transcripts(output_dir, final_file)` (lines 80-87), applied
to the directory listing, given as (name, content) pairs of the regular
files in `output_dir`: `final_file` is opened with mode `"w"` (discarding
any previous content), and for each listed name ending in `".txt"` the
file's content followed by `"\n\n"` is appended.  The returned list is the
full new content of `final_file`. -/
def concatenate_transcripts : List (List Char × List Char) → List Char
  | [] => []
  | f :: fs =>
    (if txtExt.isSuffixOf f.1 then f.2 ++ ('\n' :: '\n' :: []) else [])
      ++ concatenate_transcripts fs

/-- One entry of the output directory as `clear_transcript_folder` sees it:
its name and content, whether `os.path.isfile` holds, and whether
`os.unlink` would raise for it. -/
structure Entry where
  name : List Char
  content : List Char
  isFile : Bool
  unlinkFails : Bool
deriving DecidableEq

/-- The `for filename in os.listdir(folder_path)` loop of
`clear_transcript_folder` (lines 99-105): non-files are left alone; each
regular file is unlinked, and a failing unlink is reported (second
component: the names in the `st.error` messages) without stopping the
loop. -/
def clearLoop : List Entry → List Entry × List (List Char)
  | [] => ([], [])
  | e :: es =>
    let r := clearLoop es
    if e.isFile then
      if e.unlinkFails then (e :: r.1, e.name :: r.2) else r
    else (e :: r.1, r.2)

/-- `clear_transcript_folder(folder_path)` (lines 96-108): runs the
deletion loop when the folder exists, otherwise only warns.  Returns the
remaining entries and the names reported in error messages. -/
def clear_transcript_folder (folderExists : Bool) (entries : List Entry) :
    List Entry × List (List Char) :=
  if folderExists then clearLoop entries else (entries, [])

example :
    clear_transcript_folder true
        [⟨('a' :: []), ('x' :: []), true, false⟩,
         ⟨('b' :: []), ('y' :: []), true, true⟩,
         ⟨('d' :: []), [], false, false⟩]
      = ([⟨('b' :: []), ('y' :: []), true, true⟩, ⟨('d' :: []), [], false, false⟩],
         [('b' :: [])]) := by decide

/-- Writing a file with `open(path, "w")`: replaces the content of an
existing file of that name, otherwise adds a new file. -/
def writeFolderFile (folder : List (List Char × List Char))
    (name content : List Char) : List (List Char × List Char) :=
  if folder.any (fun f => f.1 == name) then
    folder.map (fun f => if f.1 == name then (f.1, content) else f)
  else folder ++ [(name, content)]

/-- The `for i, video_id in enumerate(video_ids, 1)` loop of `main`
(lines 468-478).  Each iteration first computes
`int((i / total_videos) * 100)`, which raises `ZeroDivisionError` when
`total_videos` is zero (the progress value itself drives only the progress
bar and is not modelled further), then runs `download_transcript`, adding
the written file, if any, to the output directory. -/
def runLoop (fetch : List Char → Except PyErr (List CaptionFragment))
    (total : Nat) :
    Nat → List (List Char) → List (List Char × List Char) →
      Except PyErr (List (List Char × List Char))
  | _, [], folder => .ok folder
  | i, video_id :: rest, folder =>
    if total = 0 then .error .zeroDivision
    else
      match (download_transcript video_id (fetch video_id)).written with
      | none => runLoop fetch total (i + 1) rest folder
      | some (n, c) => runLoop fetch total (i + 1) rest (writeFolderFile folder n c)

/-- The pipeline body of `main` (lines 451-486) from the point where the
output directory exists: clear the transcript folder, list the channel's
video ids, loop over them downloading transcripts, and concatenate the
per-video files into the final file.  Returns the content of the combined
file, or the first uncaught exception.  `initial` is the prior content of
the output directory; `scrape` the outcome of the channel listing; `fetch`
the per-video outcome of the transcript API. -/
def mainPipeline (initial : List Entry)
    (scrape : Except PyErr (List VideoRecord))
    (fetch : List Char → Except PyErr (List CaptionFragment)) :
    Except PyErr (List Char) :=
  let cleared :=
    ((clear_transcript_folder true initial).1).map (fun e => (e.name, e.content))
  match get_all_video_ids scrape with
  | .error e => .error e
  | .ok video_ids =>
    match runLoop fetch video_ids.length 1 video_ids cleared with
    | .error e => .error e
    | .ok folder => .ok (concatenate_transcripts folder)

/-- Modelled from the spec (section 4.1, `fetch_and_clean`): the cleaned
transcript described there is the fragment `text` fields "joined with
single spaces" with the lines "matching a fixed
`HH:MM:SS,mmm --> HH:MM:SS,mmm` timestamp pattern" removed.  Joining is
written here with `List.intercalate`, independently of `joinSep`, and the
removal keeps, in order, exactly the lines the pattern does not match. -/
def specClean (fragments : List CaptionFragment) : List Char :=
  List.intercalate ('\n' :: [])
    ((splitNL (List.intercalate (' ' :: []) (fragments.map (fun f => f.text)))).filter
      (fun line => !timestampMatch line))

/-- The number of occurrences of `pat` as a contiguous substring of `s`
(occurrences at each starting position are counted). -/
def countOccur (pat s : List Char) : Nat :=
  ((List.range (s.length + 1)).filter
    (fun i => pat.isPrefixOf (List.drop i s))).length

example : countOccur ('x' :: []) ("x\n\nx\n\n").toList = 2 := by decide

/-! ### Helper lemmas about line splitting and joining -/

theorem splitNL_ne_nil (s : List Char) : splitNL s ≠ [] := by
  induction s with
  | nil => simp [splitNL]
  | cons c cs ih =>
    simp only [splitNL]
    by_cases hc : c = '\n'
    · simp [hc]
    · simp only [hc, if_false]
      cases h : splitNL cs with
      | nil => simp
      | cons l ls => simp

theorem splitNL_no_newline (s : List Char) :
    ∀ l ∈ splitNL s, '\n' ∉ l := by
  induction s with
  | nil => intro l hl; simp [splitNL] at hl; simp [hl]
  | cons c cs ih =>
    intro l hl
    simp only [splitNL] at hl
    by_cases hc : c = '\n'
    · simp only [hc, if_true] at hl
      rcases List.mem_cons.mp hl with h | h
      · simp [h]
      · exact ih l h
    · simp only [hc, if_false] at hl
      cases h : splitNL cs with
      | nil => exact absurd h (splitNL_ne_nil cs)
      | cons l0 ls =>
        rw [h] at hl
        rcases List.mem_cons.mp hl with h1 | h1
        · subst h1
          intro hmem
          rcases List.mem_cons.mp hmem with h2 | h2
          · exact hc h2.symm
          · exact ih l0 (h ▸ List.mem_cons_self l0 ls) h2
        · exact ih l (h ▸ List.mem_cons_of_mem l0 h1)

theorem splitNL_of_no_newline (l : List Char) (h : '\n' ∉ l) :
    splitNL l = [l] := by
  induction l with
  | nil => rfl
  | cons c cs ih =>
    have hc : c ≠ '\n' := fun he => h (he ▸ List.mem_cons_self c cs)
    have hcs : '\n' ∉ cs := fun hm => h (List.mem_cons_of_mem c hm)
    simp only [splitNL, hc, if_false, ih hcs]

theorem splitNL_append_newline (a rest : List Char) (h : '\n' ∉ a) :
    splitNL (a ++ '\n' :: rest) = a :: splitNL rest := by
  induction a with
  | nil => simp [splitNL]
  | cons c cs ih =>
    have hc : c ≠ '\n' := fun he => h (he ▸ List.mem_cons_self c cs)
    have hcs : '\n' ∉ cs := fun hm => h (List.mem_cons_of_mem c hm)
    simp only [List.cons_append, splitNL, hc, if_false]
    rw [show cs.append ('\n' :: rest) = cs ++ '\n' :: rest from rfl, ih hcs]

theorem splitNL_joinSep (L : List (List Char)) (hne : L ≠ [])
    (hnl : ∀ l ∈ L, '\n' ∉ l) :
    splitNL (joinSep '\n' L) = L := by
  induction L with
  | nil => exact absurd rfl hne
  | cons a L ih =>
    cases L with
    | nil =>
      simpa [joinSep] using
        splitNL_of_no_newline a (hnl a (List.mem_cons_self a []))
    | cons b L2 =>
      have ha : '\n' ∉ a := hnl a (List.mem_cons_self a (b :: L2))
      have hrest : ∀ l ∈ b :: L2, '\n' ∉ l :=
        fun l hl => hnl l (List.mem_cons_of_mem a hl)
      simp only [joinSep]
      rw [splitNL_append_newline a (joinSep '\n' (b :: L2)) ha,
        ih (by simp) hrest]

theorem joinSep_eq_intercalate (c : Char) (L : List (List Char)) :
    joinSep c L = List.intercalate (c :: []) L := by
  induction L with
  | nil => simp [joinSep, List.intercalate]
  | cons a L ih =>
    cases L with
    | nil => simp [joinSep, List.intercalate, List.intersperse]
    | cons b L2 =>
      simp only [joinSep, List.intercalate, List.intersperse] at ih ⊢
      rw [ih]
      simp

/-! ### Helper lemmas about the prefix matcher -/

theorem matchesPat_append (ps : List (Char → Bool)) (l extra : List Char)
    (h : matchesPat ps l = true) : matchesPat ps (l ++ extra) = true := by
  induction ps generalizing l with
  | nil => rfl
  | cons p ps ih =>
    cases l with
    | nil => exact absurd h (by simp [matchesPat])
    | cons c cs =>
      simp only [matchesPat, Bool.and_eq_true] at h
      simp only [List.cons_append, matchesPat, Bool.and_eq_true]
      exact ⟨h.1, ih cs h.2⟩

theorem matchesPat_iff_exists (ps : List (Char → Bool)) (l : List Char) :
    matchesPat ps l = true ↔
      ∃ a b, l = a ++ b ∧ matchesExact ps a = true := by
  induction ps generalizing l with
  | nil =>
    constructor
    · intro _; exact ⟨[], l, rfl, rfl⟩
    · intro _; rfl
  | cons p ps ih =>
    cases l with
    | nil =>
      constructor
      · intro h; exact absurd h (by simp [matchesPat])
      · rintro ⟨a, b, hab, hex⟩
        rcases List.append_eq_nil.mp hab.symm with ⟨ha, _⟩
        subst ha
        exact absurd hex (by simp [matchesExact])
    | cons c cs =>
      constructor
      · intro h
        simp only [matchesPat, Bool.and_eq_true] at h
        rcases (ih cs).mp h.2 with ⟨a, b, hab, hex⟩
        refine ⟨c :: a, b, by simp [hab], ?_⟩
        simp only [matchesExact, Bool.and_eq_true]
        exact ⟨h.1, hex⟩
      · rintro ⟨a, b, hab, hex⟩
        cases a with
        | nil => exact absurd hex (by simp [matchesExact])
        | cons a0 a' =>
          simp only [List.cons_append, List.cons.injEq] at hab
          simp only [matchesExact, Bool.and_eq_true] at hex
          simp only [matchesPat, Bool.and_eq_true]
          refine ⟨hab.1 ▸ hex.1, (ih cs).mpr ⟨a', b, hab.2, hex.2⟩⟩

/-! ### Claim theorems -/

/-- C3: `remove_timestamps` acts as a pure filter on the input's lines:
every line of the output fails the timestamp-pattern match, the output has
at most as many lines as the input, and the retained lines are exactly the
non-matching input lines kept as a sublist (hence in their original
order). -/
theorem remove_timestamps_pure_filter (s : List Char) :
    ((splitNL (remove_timestamps s)).all (fun l => !timestampMatch l)) = true
  ∧ (splitNL (remove_timestamps s)).length ≤ (splitNL s).length
  ∧ ((splitNL s).filter (fun l => !timestampMatch l)).Sublist (splitNL s)
  ∧ remove_timestamps s
      = joinSep '\n' ((splitNL s).filter (fun l => !timestampMatch l)) := by
  have hrw : remove_timestamps s
      = joinSep '\n' ((splitNL s).filter (fun l => !timestampMatch l)) := rfl
  have hnl : ∀ l ∈ (splitNL s).filter (fun l => !timestampMatch l), '\n' ∉ l :=
    fun l hl => splitNL_no_newline s l (List.mem_of_mem_filter hl)
  by_cases hF : (splitNL s).filter (fun l => !timestampMatch l) = []
  · refine ⟨?_, ?_, List.filter_sublist _, hrw⟩
    · rw [hrw, hF]; decide
    · rw [hrw, hF]
      exact List.length_pos.mpr (splitNL_ne_nil s)
  · have hsplit : splitNL (remove_timestamps s)
        = (splitNL s).filter (fun l => !timestampMatch l) := by
      rw [hrw]; exact splitNL_joinSep _ hF hnl
    refine ⟨?_, ?_, List.filter_sublist _, hrw⟩
    · rw [hsplit, List.all_eq_true]
      intro l hl
      exact (List.mem_filter.mp hl).2
    · rw [hsplit]
      exact List.length_filter_le _ _

/-- C4: `remove_timestamps` is idempotent: cleaning twice equals cleaning
once. -/
theorem remove_timestamps_idempotent (s : List Char) :
    remove_timestamps (remove_timestamps s) = remove_timestamps s := by
  have hrw : remove_timestamps s
      = joinSep '\n' ((splitNL s).filter (fun l => !timestampMatch l)) := rfl
  by_cases hF : (splitNL s).filter (fun l => !timestampMatch l) = []
  · rw [hrw, hF]; decide
  · have hnl : ∀ l ∈ (splitNL s).filter (fun l => !timestampMatch l), '\n' ∉ l :=
      fun l hl => splitNL_no_newline s l (List.mem_of_mem_filter hl)
    have hsplit : splitNL (remove_timestamps s)
        = (splitNL s).filter (fun l => !timestampMatch l) := by
      rw [hrw]; exact splitNL_joinSep _ hF hnl
    have hself : ((splitNL s).filter (fun l => !timestampMatch l)).filter
        (fun l => !timestampMatch l)
        = (splitNL s).filter (fun l => !timestampMatch l) :=
      List.filter_eq_self.mpr (fun l hl => (List.mem_filter.mp hl).2)
    calc remove_timestamps (remove_timestamps s)
        = joinSep '\n' ((splitNL (remove_timestamps s)).filter
            (fun l => !timestampMatch l)) := rfl
      _ = remove_timestamps s := by rw [hsplit, hself, hrw]

/-- C2: the fetch-and-clean composition `remove_timestamps ∘
get_transcript_text` equals the spec's description: the fragment text
fields joined with single spaces, with every line the fixed timestamp
pattern matches removed. -/
theorem fetch_and_clean_spec (fragments : List CaptionFragment) :
    remove_timestamps (get_transcript_text fragments)
      = specClean fragments := by
  unfold specClean
  rw [← joinSep_eq_intercalate, ← joinSep_eq_intercalate]
  rfl

/-- C10: the timestamp regex is anchored at the start of the line and has
no end anchor: a single line is removed by `remove_timestamps` exactly when
the pattern matches, the pattern matches exactly when some prefix of the
line matches it in full (so arbitrary trailing text is allowed, while any
other leading characters defeat the match), and a match survives appending
arbitrary extra text. -/
theorem timestamp_match_anchored (l extra : List Char) (h : '\n' ∉ l) :
    (remove_timestamps l = if timestampMatch l then [] else l)
  ∧ (timestampMatch l = true
      ↔ ∃ a b, l = a ++ b ∧ matchesExact timestampPattern a = true)
  ∧ (timestampMatch l = true → timestampMatch (l ++ extra) = true) := by
  refine ⟨?_, matchesPat_iff_exists _ _, matchesPat_append _ _ _⟩
  have hsplit : splitNL l = [l] := splitNL_of_no_newline l h
  show joinSep '\n' ((splitNL l).filter (fun x => !timestampMatch x)) = _
  rw [hsplit]
  by_cases hm : timestampMatch l
  · simp [hm, joinSep]
  · simp [hm, joinSep]

/-- Witness for C10: concrete instance with a line that begins with a
timestamp and carries trailing text. -/
theorem timestamp_match_anchored_witness :
    ('\n' ∉ ("00:00:01,000 --> 00:00:02,000 more words").toList)
  ∧ (remove_timestamps ("00:00:01,000 --> 00:00:02,000 more words").toList
      = if timestampMatch ("00:00:01,000 --> 00:00:02,000 more words").toList
        then []
        else ("00:00:01,000 --> 00:00:02,000 more words").toList) :=
  ⟨by decide, (timestamp_match_anchored _ [] (by decide)).1⟩

/-- C1 counterexample: with two `.txt` files both containing `"x"`, the
combined output is `"x\n\nx\n\n"`, in which the content `"x"` of each file
occurs twice as a contiguous substring, not exactly once. -/
theorem concatenate_once_counterexample :
    ¬ (∀ f ∈ [(("a.txt").toList, ("x").toList),
              (("b.txt").toList, ("x").toList)],
        txtExt.isSuffixOf f.1 = true →
          countOccur f.2
            (concatenate_transcripts
              [(("a.txt").toList, ("x").toList),
               (("b.txt").toList, ("x").toList)]) = 1) := by
  decide

/-- C1 (amended): the combined output equals the concatenation, in
directory-listing order, of each `.txt` file's content followed by two
newlines, each listed `.txt` file contributing exactly once; hence every
`.txt` file's content followed by two newlines occurs (at least once) as a
contiguous substring.  The returned list is the whole new content of
`final_file`, so any previous content is overwritten. -/
theorem concatenate_spec (files : List (List Char × List Char)) :
    (concatenate_transcripts files
      = ((files.filter (fun f => txtExt.isSuffixOf f.1)).map
          (fun f => f.2 ++ ('\n' :: '\n' :: []))).flatten)
  ∧ (∀ f ∈ files, txtExt.isSuffixOf f.1 = true →
      ∃ a b, concatenate_transcripts files
        = a ++ (f.2 ++ ('\n' :: '\n' :: [])) ++ b) := by
  constructor
  · induction files with
    | nil => rfl
    | cons g fs ih =>
      by_cases hg : txtExt.isSuffixOf g.1
      · simp [concatenate_transcripts, List.filter_cons, hg, ih]
      · simp [concatenate_transcripts, List.filter_cons, hg, ih]
  · induction files with
    | nil => intro f hf; simp at hf
    | cons g fs ih =>
      intro f hf hsf
      rcases List.mem_cons.mp hf with h | h
      · subst h
        refine ⟨[], concatenate_transcripts fs, ?_⟩
        simp [concatenate_transcripts, hsf]
      · rcases ih f h hsf with ⟨a, b, hab⟩
        refine ⟨(if txtExt.isSuffixOf g.1 then g.2 ++ ('\n' :: '\n' :: [])
                 else []) ++ a, b, ?_⟩
        simp only [concatenate_transcripts, hab]
        simp [List.append_assoc]

/-- Witness for C1 (amended): a concrete one-file directory. -/
theorem concatenate_spec_witness :
    ((("a.txt").toList, ("x").toList) ∈ [(("a.txt").toList, ("x").toList)])
  ∧ (txtExt.isSuffixOf ("a.txt").toList = true)
  ∧ (∃ a b, concatenate_transcripts [(("a.txt").toList, ("x").toList)]
      = a ++ (("x").toList ++ ('\n' :: '\n' :: [])) ++ b) :=
  ⟨by decide, by decide,
   (concatenate_spec [(("a.txt").toList, ("x").toList)]).2
     (("a.txt").toList, ("x").toList) (by decide) (by decide)⟩

/-- C5: when the transcript fetch raises, `download_transcript` logs the
failure, writes no file, and returns `False`; whenever it returns `True` it
has written exactly the one file `<video_id>.txt` containing the cleaned
transcript. -/
theorem download_transcript_cases (video_id : List Char) :
    (∀ e, download_transcript video_id (.error e)
        = ⟨false, none, some (.failedDownload video_id e)⟩)
  ∧ (∀ fragments,
      (download_transcript video_id (.ok fragments)).retval = true →
        download_transcript video_id (.ok fragments)
          = ⟨true,
             some (video_id ++ txtExt,
                   remove_timestamps (get_transcript_text fragments)),
             none⟩) := by
  constructor
  · intro e; rfl
  · intro fragments h
    by_cases ht : get_transcript_text fragments = []
    · exfalso
      simp [download_transcript, ht] at h
    · simp [download_transcript, ht]

/-- Witness for C5: a concrete successful download. -/
theorem download_transcript_cases_witness :
    ((download_transcript ("abc").toList
        (.ok [⟨("hello").toList⟩])).retval = true)
  ∧ (download_transcript ("abc").toList (.ok [⟨("hello").toList⟩])
      = ⟨true,
         some (("abc").toList ++ txtExt,
               remove_timestamps (get_transcript_text [⟨("hello").toList⟩])),
         none⟩) :=
  ⟨by decide,
   (download_transcript_cases ("abc").toList).2 [⟨("hello").toList⟩] (by decide)⟩

/-- C9: when the fetch succeeds but the space-joined caption text is empty,
`download_transcript` returns `False` and writes no file, logging the
"no transcript" message instead — the same skip as a failed fetch. -/
theorem download_transcript_empty (video_id : List Char)
    (fragments : List CaptionFragment)
    (h : get_transcript_text fragments = []) :
    download_transcript video_id (.ok fragments)
      = ⟨false, none, some (.noTranscript video_id)⟩ := by
  simp [download_transcript, h]

/-- Witness for C9: a single fragment whose text is empty joins to the
empty string. -/
theorem download_transcript_empty_witness :
    (get_transcript_text [⟨([] : List Char)⟩] = [])
  ∧ (download_transcript ("abc").toList (.ok [⟨([] : List Char)⟩])
      = ⟨false, none, some (.noTranscript ("abc").toList)⟩) :=
  ⟨rfl, download_transcript_empty ("abc").toList [⟨([] : List Char)⟩] rfl⟩

/-- The deletion loop keeps exactly the entries that are not regular files
or whose unlink raised, and reports exactly the failing names, in order:
one failure does not abort the rest of the clear. -/
theorem clearLoop_spec (entries : List Entry) :
    ((clearLoop entries).1.filter (fun e => e.isFile)
      = entries.filter (fun e => e.isFile && e.unlinkFails))
  ∧ ((clearLoop entries).2
      = (entries.filter (fun e => e.isFile && e.unlinkFails)).map
          (fun e => e.name)) := by
  induction entries with
  | nil => exact ⟨rfl, rfl⟩
  | cons e es ih =>
    by_cases hf : e.isFile
    · by_cases hu : e.unlinkFails
      · constructor
        · simpa [clearLoop, List.filter_cons, hf, hu] using ih.1
        · simpa [clearLoop, List.filter_cons, hf, hu] using ih.2
      · constructor
        · simpa [clearLoop, List.filter_cons, hf, hu] using ih.1
        · simpa [clearLoop, List.filter_cons, hf, hu] using ih.2
    · constructor
      · simpa [clearLoop, List.filter_cons, hf] using ih.1
      · simpa [clearLoop, List.filter_cons, hf] using ih.2

/-- C6: `clear_transcript_folder` deletes every regular file whose unlink
succeeds — when all deletions succeed no regular file remains, for any
number of entries — and a failing deletion is reported by name without
aborting the deletion of the remaining files. -/
theorem clear_folder_spec (entries : List Entry) :
    ((clear_transcript_folder true entries).1.filter (fun e => e.isFile)
      = entries.filter (fun e => e.isFile && e.unlinkFails))
  ∧ ((clear_transcript_folder true entries).2
      = (entries.filter (fun e => e.isFile && e.unlinkFails)).map
          (fun e => e.name))
  ∧ (entries.all (fun e => !e.unlinkFails) = true →
      (clear_transcript_folder true entries).1.filter
        (fun e => e.isFile) = []) := by
  have hcf : clear_transcript_folder true entries = clearLoop entries := rfl
  have h := clearLoop_spec entries
  refine ⟨hcf ▸ h.1, hcf ▸ h.2, ?_⟩
  intro hall
  rw [hcf, h.1, List.filter_eq_nil_iff]
  intro e he
  have := List.all_eq_true.mp hall e he
  simp only [Bool.not_eq_eq_eq_not, Bool.not_true] at this
  simp [this]

/-- Witness for C6: one regular file, deletion succeeding. -/
theorem clear_folder_spec_witness :
    (([(⟨('a' :: []), ('x' :: []), true, false⟩ : Entry)]).all
        (fun e => !e.unlinkFails) = true)
  ∧ ((clear_transcript_folder true
        [(⟨('a' :: []), ('x' :: []), true, false⟩ : Entry)]).1.filter
      (fun e => e.isFile) = []) :=
  ⟨by decide,
   (clear_folder_spec [⟨('a' :: []), ('x' :: []), true, false⟩]).2.2
     (by decide)⟩

/-- When every entry is a regular file whose unlink succeeds, the deletion
loop empties the folder. -/
theorem clearLoop_all_deleted (entries : List Entry)
    (h : ∀ e ∈ entries, e.isFile = true ∧ e.unlinkFails = false) :
    (clearLoop entries).1 = [] := by
  induction entries with
  | nil => rfl
  | cons e es ih =>
    have he := h e (List.mem_cons_self e es)
    simp only [clearLoop, he.1, he.2, if_true, if_false]
    exact ih (fun x hx => h x (List.mem_cons_of_mem e hx))

/-- C7: with zero video identifiers the pipeline completes without any
error — the loop body holding the progress division is never entered, so no
division by zero is raised — and the combined output file is written with
empty content. -/
theorem empty_channel_ok (initial : List Entry)
    (fetch : List Char → Except PyErr (List CaptionFragment))
    (h : initial.all (fun e => e.isFile && !e.unlinkFails) = true) :
    mainPipeline initial (.ok []) fetch = .ok [] := by
  have hall : ∀ e ∈ initial, e.isFile = true ∧ e.unlinkFails = false := by
    intro e he
    have := List.all_eq_true.mp h e he
    simp only [Bool.and_eq_true, Bool.not_eq_eq_eq_not, Bool.not_true] at this
    exact this
  have hclear : (clearLoop initial).1 = [] := clearLoop_all_deleted initial hall
  simp [mainPipeline, get_all_video_ids, clear_transcript_folder, hclear,
    runLoop, concatenate_transcripts]

/-- Witness for C7: an initially empty folder and a fetch stub that would
raise if it were ever consulted. -/
theorem empty_channel_ok_witness :
    (([] : List Entry).all (fun e => e.isFile && !e.unlinkFails) = true)
  ∧ (mainPipeline [] (.ok []) (fun _ => .error (.raised [])) = .ok []) :=
  ⟨rfl, empty_channel_ok [] (fun _ => .error (.raised [])) rfl⟩

/-- C8: `get_all_video_ids` propagates any scraper exception unchanged and
otherwise returns exactly the `videoId` fields of the scraped records, one
per record and in the scraper's order. -/
theorem get_all_video_ids_spec (videos : List VideoRecord) (e : PyErr) :
    (get_all_video_ids (.error e) = .error e)
  ∧ (get_all_video_ids (.ok videos)
      = .ok (videos.map (fun v => v.videoId)))
  ∧ ((videos.map (fun v => v.videoId)).length = videos.length)
  ∧ (∀ i (h1 : i < videos.length)
       (h2 : i < (videos.map (fun v => v.videoId)).length),
      (videos.map (fun v => v.videoId)).get ⟨i, h2⟩
        = (videos.get ⟨i, h1⟩).videoId) := by
  refine ⟨rfl, rfl, List.length_map _ _, ?_⟩
  intro i h1 h2
  simp [List.getElem_map]

/-- Witness for C8: a one-record scrape. -/
theorem get_all_video_ids_spec_witness :
    (0 < [(⟨("v1").toList⟩ : VideoRecord)].length)
  ∧ (0 < ([(⟨("v1").toList⟩ : VideoRecord)].map (fun v => v.videoId)).length)
  ∧ (([(⟨("v1").toList⟩ : VideoRecord)].map (fun v => v.videoId)).get
        ⟨0, by decide⟩
      = ([(⟨("v1").toList⟩ : VideoRecord)].get ⟨0, by decide⟩).videoId) :=
  ⟨by decide, by decide,
   (get_all_video_ids_spec [⟨("v1").toList⟩] .zeroDivision).2.2.2 0
     (by decide) (by decide)⟩
